import Mathlib

/-!
Verification development for the cross-reference resolution and
position-tracking layer of the MuseScore streaming score reader
(`src/engraving/rw/xmlreader.cpp`, namespace `Ms`).

The functions of `xmlreader.cpp` are embedded shallowly below.  Helper
types that live outside the provided source (`Fraction`, `Location`,
`ConnectorInfoReader`, `Tuplet`, the Qt string/attribute utilities) are
modelled from the specification; each such definition carries a doc
comment saying so.
-/

namespace Ms

/-! ## Qt string conversions (external collaborators) -/

/-- Modelled from the spec: `QString::toInt` conversion used by the
attribute accessors.  The whole string must be an optionally signed
decimal number, otherwise the conversion fails and Qt returns `0`
(in particular the empty string converts to `0`). -/
def qtToInt (s : String) : Int :=
  let digitsVal : List Char → Option Nat := fun cs =>
    if cs ≠ [] ∧ cs.all Char.isDigit then
      some (cs.foldl (fun a c => a * 10 + (c.toNat - '0'.toNat)) 0)
    else
      none
  match s.toList with
  | '-' :: rest =>
    match digitsVal rest with
    | some v => -(v : Int)
    | none => 0
  | '+' :: rest =>
    match digitsVal rest with
    | some v => (v : Int)
    | none => 0
  | l =>
    match digitsVal l with
    | some v => (v : Int)
    | none => 0

/-! ## Fraction (rational time value) -/

/-- Modelled from the spec: ticks per quarter note (`MScore::division`);
"Tick / Fraction: a rational measure of time position within the
document", kept together with "a cached integer-tick mirror". -/
def division : Int := 480

/-- Ticks per whole note. -/
def ticksPerWhole : Int := 4 * division

/-- Modelled from the spec: a rational time value with explicit
numerator and denominator (the `Fraction` class is outside the given
source file). -/
structure Fraction where
  num : Int
  den : Int
deriving DecidableEq, Repr

/-- Modelled from the spec: reduce to lowest terms (`Fraction::reduced`),
dividing both components by their gcd. -/
def Fraction.reduced (f : Fraction) : Fraction :=
  let g : Int := (Int.gcd f.num f.den : Int)
  if g = 0 then f else ⟨f.num / g, f.den / g⟩

/-- Modelled from the spec: the cached integer-tick value of a rational
time position, rounded to the nearest tick. -/
def Fraction.ticks (f : Fraction) : Int :=
  if f.den = 0 then 0
  else
    let sgn : Int := if f.num < 0 then -1 else 1
    sgn * ((sgn * f.num * ticksPerWhole + f.den / 2) / f.den)

/-- Modelled from the spec: `Fraction::fromTicks` — the rational time
value of an integer tick count, in lowest terms ("lowest-ticks form"). -/
def Fraction.fromTicks (v : Int) : Fraction :=
  (Fraction.mk v ticksPerWhole).reduced

/-- Modelled from the spec: exact rational addition (`operator+`). -/
def Fraction.add (a b : Fraction) : Fraction :=
  ⟨a.num * b.den + b.num * a.den, a.den * b.den⟩

/-- Modelled from the spec: exact rational subtraction (`operator-`). -/
def Fraction.sub (a b : Fraction) : Fraction :=
  ⟨a.num * b.den - b.num * a.den, a.den * b.den⟩

/-- Modelled from the spec: value equality of two fractions
(`Fraction::operator==` compares cross products, not representations). -/
def Fraction.sameVal (a b : Fraction) : Prop :=
  a.num * b.den = b.num * a.den

instance : DecidablePred fun p : Fraction × Fraction => p.1.sameVal p.2 :=
  fun _ => by unfold Fraction.sameVal; infer_instance

instance (a b : Fraction) : Decidable (a.sameVal b) := by
  unfold Fraction.sameVal; infer_instance

/-- The rational number denoted by a fraction (model-level valuation). -/
def Fraction.val (f : Fraction) : ℚ := (f.num : ℚ) / (f.den : ℚ)

/-! ## Attribute accessors (`XmlReader::intAttribute` etc.)

The attribute set of the current element is modelled as an association
list of key/value strings; `QXmlStreamAttributes::value` returns the
empty string when the key is absent. -/

/-- Attribute list of the current start element. -/
abbrev Attrs := List (String × String)

/-- Modelled from the spec: `QXmlStreamAttributes::hasAttribute`. -/
def attrsHas (a : Attrs) (s : String) : Bool :=
  a.any (fun p => p.1 = s)

/-- Modelled from the spec: `QXmlStreamAttributes::value`; yields the
empty string when the key is absent. -/
def attrsValue (a : Attrs) (s : String) : String :=
  match a.find? (fun p => p.1 = s) with
  | some p => p.2
  | none => ""

/-- `XmlReader::hasAttribute`. -/
def hasAttribute (a : Attrs) (s : String) : Bool :=
  attrsHas a s

/-- `XmlReader::intAttribute(s, _default)` — returns the parsed value
when the key is present, the declared default otherwise. -/
def intAttributeD (a : Attrs) (s : String) (dflt : Int) : Int :=
  if attrsHas a s then qtToInt (attrsValue a s) else dflt

/-- `XmlReader::intAttribute(s)` — no-default variant: converts the
looked-up value directly (an absent key yields the empty string, which
converts to `0`). -/
def intAttribute (a : Attrs) (s : String) : Int :=
  qtToInt (attrsValue a s)

/-- Modelled from the spec: `QString::toDouble`, restricted to the
integer-valued strings exercised here; reals are modelled as rationals.
The empty string converts to `0`. -/
def qtToDouble (s : String) : ℚ := (qtToInt s : ℚ)

/-- `XmlReader::doubleAttribute(s)` — no-default variant. -/
def doubleAttribute (a : Attrs) (s : String) : ℚ :=
  qtToDouble (attrsValue a s)

/-- `XmlReader::doubleAttribute(s, _default)`. -/
def doubleAttributeD (a : Attrs) (s : String) (dflt : ℚ) : ℚ :=
  if attrsHas a s then qtToDouble (attrsValue a s) else dflt

/-- `XmlReader::attribute(s, _default)` — string attribute with a
declared default. -/
def stringAttributeD (a : Attrs) (s : String) (dflt : String) : String :=
  if attrsHas a s then attrsValue a s else dflt

/-! ## `XmlReader::readFraction` -/

/-- `XmlReader::readFraction`: reads either the old attribute form
`<move z=".." n=".."/>` or the new text form `<move>a/b</move>`;
a slash-free non-empty text is an integer tick count. -/
def readFraction (a : Attrs) (text : String) : Fraction :=
  let z := qtToInt (stringAttributeD a "z" "0")
  let n := qtToInt (stringAttributeD a "n" "1")
  if text = "" then
    Fraction.mk z n
  else
    let cs := text.toList
    match cs.findIdx? (fun c => c = '/') with
    | none => Fraction.fromTicks (qtToInt text)
    | some i =>
      Fraction.mk (qtToInt (String.mk (cs.take i))) (qtToInt (String.mk (cs.drop (i + 1))))

/-! ## `XmlReader::readDouble` -/

/-- `XmlReader::readDouble(min, max)`: the element text's parsed value
(`val`, standing for `readElementText().toDouble()`) clamped from below
by `min` and from above by `max`; doubles are modelled as rationals. -/
def readDouble (minV maxV val : ℚ) : ℚ :=
  if val < minV then minV
  else if val > maxV then maxV
  else val

/-! ## Theorems about the leaf readers and accessors -/

/-- C1: `readFraction` accepts both persisted forms of a rational time
value: text `"3/8"` gives the fraction `(3,8)`; attributes `z=1,n=4`
with no text child give `(1,4)`; default attributes with slash-free
text `"5"` give the integer-tick value of 5 ticks in lowest-ticks form
(5 ticks over a whole, reduced); and a non-empty text child always takes
precedence over the attribute form. -/
theorem readFraction_accepts_both_forms :
    readFraction [] "3/8" = ⟨3, 8⟩
    ∧ readFraction [("z", "1"), ("n", "4")] "" = ⟨1, 4⟩
    ∧ readFraction [("z", "0"), ("n", "1")] "5" = Fraction.fromTicks 5
    ∧ (Fraction.fromTicks 5).ticks = 5
    ∧ (Fraction.fromTicks 5).reduced = Fraction.fromTicks 5
    ∧ (Fraction.fromTicks 5).sameVal ⟨5, ticksPerWhole⟩
    ∧ ∀ (a : Attrs) (s : String), s ≠ "" → readFraction a s = readFraction [] s := by
  refine ⟨by decide, by decide, by decide, by decide, by decide, by decide, ?_⟩
  intro a s h
  simp [readFraction, h]

/-- Witness for C1's precedence clause at a concrete input: attributes
`z=9` are ignored when the text `"3/8"` is present. -/
theorem readFraction_accepts_both_forms_witness :
    readFraction [("z", "9")] "3/8" = readFraction [] "3/8" :=
  readFraction_accepts_both_forms.2.2.2.2.2.2 [("z", "9")] "3/8" (by decide)

/-- C8 counterexample: the no-default variants do not fail on an absent
key — `intAttribute` returns `0` for the missing key `"x"`, the same
value as for a present attribute `x="0"`, and `doubleAttribute`
likewise returns `0`; there is no missing-required-attribute signal. -/
theorem intAttribute_no_default_counterexample :
    intAttribute [] "x" = 0
    ∧ hasAttribute [] "x" = false
    ∧ intAttribute [("x", "0")] "x" = 0
    ∧ doubleAttribute [] "x" = 0 := by
  refine ⟨by decide, by decide, by decide, ?_⟩
  simp [doubleAttribute, attrsValue, qtToDouble, qtToInt]

/-- If the key is not present, the underlying attribute lookup yields
the empty string. -/
theorem attrsValue_of_not_has (a : Attrs) (s : String)
    (h : attrsHas a s = false) : attrsValue a s = "" := by
  unfold attrsHas at h
  unfold attrsValue
  have : a.find? (fun p => decide (p.1 = s)) = none := by
    rw [List.find?_eq_none]
    intro x hx
    simp only [List.any_eq_false] at h
    simpa using h x hx
  simp [this]

/-- C8 (amended): the accessors with a declared default return the
converted attribute value when the key is present and the declared
default when it is absent; the variants with no default do not fail but
return the conversion of the empty lookup result, `0`, when the key is
absent. -/
theorem attribute_accessors_defaults (a : Attrs) (s : String)
    (di : Int) (dd : ℚ) (ds : String) :
    (hasAttribute a s = true →
      intAttributeD a s di = qtToInt (attrsValue a s)
      ∧ doubleAttributeD a s dd = qtToDouble (attrsValue a s)
      ∧ stringAttributeD a s ds = attrsValue a s)
    ∧ (hasAttribute a s = false →
      intAttributeD a s di = di
      ∧ doubleAttributeD a s dd = dd
      ∧ stringAttributeD a s ds = ds)
    ∧ (hasAttribute a s = false →
      intAttribute a s = 0 ∧ doubleAttribute a s = 0) := by
  unfold hasAttribute intAttributeD doubleAttributeD stringAttributeD
  refine ⟨fun h => ?_, fun h => ?_, fun h => ?_⟩
  · simp [h]
  · simp [h]
  · have hv := attrsValue_of_not_has a s h
    unfold intAttribute doubleAttribute
    rw [hv]
    exact ⟨by decide, by simp [qtToDouble, qtToInt]⟩

/-- Witness for C8's amended accessor contract at concrete inputs. -/
theorem attribute_accessors_defaults_witness :
    intAttributeD [("k", "7")] "k" 3 = 7
    ∧ intAttributeD [] "k" 3 = 3
    ∧ intAttribute [] "k" = 0 := by
  refine ⟨?_, ?_, ?_⟩
  · exact (((attribute_accessors_defaults [("k", "7")] "k" 3 0 "").1 (by decide)).1).trans
      (by decide)
  · exact ((attribute_accessors_defaults [] "k" 3 0 "").2.1 (by decide)).1
  · exact ((attribute_accessors_defaults [] "k" 3 0 "").2.2 (by decide)).1

/-- C10: `readDouble` clamps the parsed value into the closed interval
from `min` to `max`: values below `min` become `min`, values above
`max` become `max`, in-range values pass through, and whenever
`min ≤ max` the result lies in the interval. -/
theorem readDouble_clamps (minV maxV val : ℚ) (h : minV ≤ maxV) :
    minV ≤ readDouble minV maxV val
    ∧ readDouble minV maxV val ≤ maxV
    ∧ (val < minV → readDouble minV maxV val = minV)
    ∧ (maxV < val → readDouble minV maxV val = maxV)
    ∧ (minV ≤ val → val ≤ maxV → readDouble minV maxV val = val) := by
  unfold readDouble
  refine ⟨?_, ?_, fun hv => ?_, fun hv => ?_, fun h1 h2 => ?_⟩
  · split_ifs <;> linarith
  · split_ifs <;> linarith
  · rw [if_pos hv]
  · rw [if_neg (not_lt.mpr (le_of_lt (lt_of_le_of_lt h hv))), if_pos hv]
  · rw [if_neg (not_lt.mpr h1), if_neg (not_lt.mpr h2)]

/-- Witness for C10 at a concrete out-of-range input. -/
theorem readDouble_clamps_witness :
    (0 : ℚ) ≤ readDouble 0 10 42 ∧ readDouble 0 10 42 ≤ 10 :=
  ⟨(readDouble_clamps 0 10 42 (by norm_num)).1,
   (readDouble_clamps 0 10 42 (by norm_num)).2.1⟩

/-! ## Location and the tick/track cursor -/

/-- Modelled from the spec: the sentinel "unset" value filled in lazily
by the cursor (`INT_MIN`-style default of the `Location` fields). -/
def unsetVal : Int := -(2 ^ 31)

/-- Modelled from the spec: an addressable point in the document's
time/voice space — `track`, rational time `frac`, `measure` index, and
whether the point is expressed in relative form. -/
structure Location where
  track : Int
  frac : Fraction
  measure : Int
  isRel : Bool
deriving DecidableEq, Repr

/-- Modelled from the spec: `Location::absolute()` — an absolute
location with every field at its sentinel default. -/
def Location.absolute : Location :=
  ⟨unsetVal, ⟨unsetVal, 1⟩, unsetVal, false⟩

/-- Modelled from the spec: `Location::toAbsolute(ref)` — convert a
relative location to absolute by adding the relative offset to the
reference position; an already absolute location is unchanged. -/
def Location.toAbsolute (l ref : Location) : Location :=
  if l.isRel then
    ⟨l.track + ref.track, l.frac.add ref.frac, l.measure + ref.measure, false⟩
  else l

/-- Modelled from the spec: the structural data of a measure needed
here — its absolute start tick (`Measure::tick()`). -/
structure Measure where
  mTick : Fraction
deriving DecidableEq, Repr

/-- The reader-session cursor (`XmlReader` position state): current
rational tick `_tick` with its cached integer mirror `_intTick`,
current `_track`, the paste offsets, the current measure and its
structural index, and the paste-mode flag. -/
structure XmlReaderState where
  tick : Fraction
  intTick : Int
  track : Int
  trackOffset : Int
  tickOffset : Fraction
  curMeasure : Option Measure
  curMeasureIdx : Int
  pasteMode : Bool
deriving DecidableEq, Repr

/-- Modelled from the spec: the `tick()` accessor applies the paste
tick offset to the raw cursor tick. -/
def XmlReaderState.tickG (st : XmlReaderState) : Fraction :=
  st.tick.add st.tickOffset

/-- Modelled from the spec: the `track()` accessor applies the paste
track offset to the raw cursor track. -/
def XmlReaderState.trackG (st : XmlReaderState) : Int :=
  st.track + st.trackOffset

/-- `XmlReader::rtick`: position relative to the current measure, or
the raw tick when no measure is current. -/
def XmlReaderState.rtick (st : XmlReaderState) : Fraction :=
  match st.curMeasure with
  | some m => st.tick.sub m.mTick
  | none => st.tick

/-- `XmlReader::setTick`: store the reduced fraction and refresh the
integer-tick mirror from it. -/
def setTick (st : XmlReaderState) (f : Fraction) : XmlReaderState :=
  { st with tick := f.reduced, intTick := f.reduced.ticks }

/-- `XmlReader::incTick`: add to the tick, reduce, and advance the
integer-tick mirror by the increment's own tick count. -/
def incTick (st : XmlReaderState) (f : Fraction) : XmlReaderState :=
  { st with tick := (st.tick.add f).reduced, intTick := st.intTick + f.ticks }

/-- `XmlReader::fillLocation`: fill the fields still at their default
with the cursor's current values; in paste mode (or when absolute
fractions are forced) the absolute tick is used and the measure number
is reported as 0. -/
def fillLocation (st : XmlReaderState) (l : Location) (forceAbsFrac : Bool) : Location :=
  let defaults := Location.absolute
  let absFrac := st.pasteMode || forceAbsFrac
  let l1 := if l.track = defaults.track then { l with track := st.trackG } else l
  let l2 :=
    if l1.frac.sameVal defaults.frac then
      { l1 with frac := if absFrac then st.tickG else st.rtick }
    else l1
  if l2.measure = defaults.measure then
    { l2 with measure := if absFrac then 0 else st.curMeasureIdx }
  else l2

/-- `XmlReader::location`: an absolute location for the current reader
position. -/
def location (st : XmlReaderState) (forceAbsFrac : Bool) : Location :=
  fillLocation st Location.absolute forceAbsFrac

/-- The absolute branch of `XmlReader::setLocation`: set the track and
tick from the location minus the paste offsets; outside paste mode the
tick is then advanced by the current measure's start tick (the release
build's `Q_ASSERT` on the measure index is a no-op).  Dereferencing the
current measure with none set is the failure case. -/
def setLocationAbs (st : XmlReaderState) (l : Location) : Option XmlReaderState :=
  let st1 := { st with track := l.track - st.trackOffset }
  let st2 := setTick st1 (l.frac.sub st.tickOffset)
  if st2.pasteMode then some st2
  else
    match st2.curMeasure with
    | none => none
    | some m => some (incTick st2 m.mTick)

/-- The fast-path guard of the relative branch of
`XmlReader::setLocation`: the current `_tick` equals the fraction of
the integer-tick mirror advanced by the location's encoded tick delta. -/
def setLocationFastGuard (st : XmlReaderState) (l : Location) : Prop :=
  st.tick.sameVal (Fraction.fromTicks (st.intTick + l.frac.ticks))

instance (st : XmlReaderState) (l : Location) :
    Decidable (setLocationFastGuard st l) := by
  unfold setLocationFastGuard; infer_instance

/-- The fast path of the relative branch: advance only the integer-tick
mirror by the encoded delta and set the track from the converted
absolute location. -/
def setLocationFast (st : XmlReaderState) (l : Location) : XmlReaderState :=
  { st with
    intTick := st.intTick + l.frac.ticks,
    track := (l.toAbsolute (location st false)).track - st.trackOffset }

/-- The slow path of the relative branch: one recursive call of
`setLocation` on the location converted to absolute form. -/
def setLocationSlow (st : XmlReaderState) (l : Location) : Option XmlReaderState :=
  setLocationAbs st (l.toAbsolute (location st false))

/-- `XmlReader::setLocation`: a relative location takes the fast path
when the guard holds and otherwise recurses once on the converted
absolute location (which lands in the absolute branch, embedded as
`setLocationAbs`); an absolute location takes the absolute branch
directly. -/
def setLocation (st : XmlReaderState) (l : Location) : Option XmlReaderState :=
  if l.isRel then
    if setLocationFastGuard st l then some (setLocationFast st l)
    else setLocationSlow st l
  else setLocationAbs st l

/-! ## Valuation lemmas for the fraction model -/

theorem Fraction.val_add (a b : Fraction) (ha : a.den ≠ 0) (hb : b.den ≠ 0) :
    (a.add b).val = a.val + b.val := by
  have ha' : (a.den : ℚ) ≠ 0 := Int.cast_ne_zero.mpr ha
  have hb' : (b.den : ℚ) ≠ 0 := Int.cast_ne_zero.mpr hb
  unfold Fraction.add Fraction.val
  push_cast
  field_simp

theorem Fraction.val_sub (a b : Fraction) (ha : a.den ≠ 0) (hb : b.den ≠ 0) :
    (a.sub b).val = a.val - b.val := by
  have ha' : (a.den : ℚ) ≠ 0 := Int.cast_ne_zero.mpr ha
  have hb' : (b.den : ℚ) ≠ 0 := Int.cast_ne_zero.mpr hb
  unfold Fraction.sub Fraction.val
  push_cast
  field_simp
  ring

theorem Fraction.val_reduced (f : Fraction) : f.reduced.val = f.val := by
  unfold Fraction.reduced
  by_cases h0 : ((Int.gcd f.num f.den : Int) = 0)
  · simp [h0]
  · rw [if_neg h0]
    have h1 : (Int.gcd f.num f.den : Int) ∣ f.num := Int.gcd_dvd_left
    have h2 : (Int.gcd f.num f.den : Int) ∣ f.den := Int.gcd_dvd_right
    have hgQ : ((Int.gcd f.num f.den : Int) : ℚ) ≠ 0 := Int.cast_ne_zero.mpr h0
    unfold Fraction.val
    have e1 : ((f.num / (Int.gcd f.num f.den : Int) : Int) : ℚ)
        * ((Int.gcd f.num f.den : Int) : ℚ) = (f.num : ℚ) := by
      rw [← Int.cast_mul]
      exact congrArg Int.cast (Int.ediv_mul_cancel h1)
    have e2 : ((f.den / (Int.gcd f.num f.den : Int) : Int) : ℚ)
        * ((Int.gcd f.num f.den : Int) : ℚ) = (f.den : ℚ) := by
      rw [← Int.cast_mul]
      exact congrArg Int.cast (Int.ediv_mul_cancel h2)
    calc ((f.num / (Int.gcd f.num f.den : Int) : Int) : ℚ)
          / ((f.den / (Int.gcd f.num f.den : Int) : Int) : ℚ)
        = ((f.num / (Int.gcd f.num f.den : Int) : Int) : ℚ)
            * ((Int.gcd f.num f.den : Int) : ℚ)
          / (((f.den / (Int.gcd f.num f.den : Int) : Int) : ℚ)
            * ((Int.gcd f.num f.den : Int) : ℚ)) := by
          rw [mul_div_mul_right _ _ hgQ]
      _ = (f.num : ℚ) / (f.den : ℚ) := by rw [e1, e2]

theorem Fraction.reduced_den_ne_zero (f : Fraction) (h : f.den ≠ 0) :
    f.reduced.den ≠ 0 := by
  unfold Fraction.reduced
  by_cases h0 : ((Int.gcd f.num f.den : Int) = 0)
  · simpa [h0] using h
  · rw [if_neg h0]
    intro hz
    apply h
    have hc := Int.ediv_mul_cancel
      (Int.gcd_dvd_right : (Int.gcd f.num f.den : Int) ∣ f.den)
    simp only at hz
    rw [← hc, hz, zero_mul]

theorem Fraction.sameVal_iff_val (a b : Fraction) (ha : a.den ≠ 0) (hb : b.den ≠ 0) :
    a.sameVal b ↔ a.val = b.val := by
  have ha' : (a.den : ℚ) ≠ 0 := Int.cast_ne_zero.mpr ha
  have hb' : (b.den : ℚ) ≠ 0 := Int.cast_ne_zero.mpr hb
  unfold Fraction.sameVal Fraction.val
  rw [div_eq_div_iff ha' hb']
  constructor
  · intro h; exact_mod_cast h
  · intro h; exact_mod_cast h

/-! ## Theorems about `location` / `setLocation` -/

/-- `location()` fills every field of the all-default absolute
location from the cursor. -/
theorem location_false_eval (st : XmlReaderState) :
    location st false =
      ⟨st.trackG, (if st.pasteMode then st.tickG else st.rtick),
       (if st.pasteMode then 0 else st.curMeasureIdx), false⟩ := by
  simp [location, fillLocation, Location.absolute, Fraction.sameVal]

/-- C2 (amended): `setLocation(location())` leaves the cursor's track
and current measure unchanged for every cursor state, and leaves the
tick value unchanged provided the cursor is in paste mode, or its paste
tick offset is zero-valued and a current measure is set (denominators
are nonzero as for every well-formed fraction). -/
theorem setLocation_location_noop (st : XmlReaderState)
    (hd : st.tick.den ≠ 0) (hod : st.tickOffset.den ≠ 0)
    (hnp : st.pasteMode = false →
      st.tickOffset.val = 0 ∧ ∃ m, st.curMeasure = some m ∧ m.mTick.den ≠ 0) :
    ∃ st', setLocation st (location st false) = some st'
      ∧ st'.track = st.track
      ∧ st'.tick.val = st.tick.val
      ∧ st'.curMeasure = st.curMeasure := by
  rw [location_false_eval]
  have htg : (st.tickG).den = st.tick.den * st.tickOffset.den := rfl
  have htgne : (st.tickG).den ≠ 0 := by rw [htg]; exact mul_ne_zero hd hod
  by_cases hp : st.pasteMode = true
  · refine ⟨{ st with
        tick := (st.tickG.sub st.tickOffset).reduced,
        intTick := (st.tickG.sub st.tickOffset).reduced.ticks,
        track := st.trackG - st.trackOffset }, ?_, ?_, ?_, ?_⟩
    · simp [setLocation, setLocationAbs, setTick, hp]
    · simp [XmlReaderState.trackG]
    · show ((st.tickG.sub st.tickOffset).reduced).val = st.tick.val
      rw [Fraction.val_reduced, Fraction.val_sub _ _ htgne hod,
        show st.tickG = st.tick.add st.tickOffset from rfl,
        Fraction.val_add _ _ hd hod]
      ring
    · rfl
  · have hp' : st.pasteMode = false := by revert hp; cases st.pasteMode <;> simp
    obtain ⟨h0, m, hm, hmd⟩ := hnp hp'
    have hrt : st.rtick = st.tick.sub m.mTick := by unfold XmlReaderState.rtick; rw [hm]
    have hrtne : (st.rtick).den ≠ 0 := by
      rw [hrt]; exact mul_ne_zero hd hmd
    have hsubne : ((st.rtick.sub st.tickOffset)).den ≠ 0 := mul_ne_zero hrtne hod
    have hredne : ((st.rtick.sub st.tickOffset).reduced).den ≠ 0 :=
      Fraction.reduced_den_ne_zero _ hsubne
    refine ⟨{ st with
        tick := (((st.rtick.sub st.tickOffset).reduced).add m.mTick).reduced,
        intTick := ((st.rtick.sub st.tickOffset).reduced).ticks + (m.mTick).ticks,
        track := st.trackG - st.trackOffset }, ?_, ?_, ?_, ?_⟩
    · simp [setLocation, setLocationAbs, setTick, incTick, hp', hm]
    · simp [XmlReaderState.trackG]
    · show ((((st.rtick.sub st.tickOffset).reduced).add m.mTick).reduced).val = st.tick.val
      rw [Fraction.val_reduced, Fraction.val_add _ _ hredne hmd, Fraction.val_reduced,
        Fraction.val_sub _ _ hrtne hod, hrt, Fraction.val_sub _ _ hd hmd, h0]
      ring
    · rfl

/-- A paste-mode cursor state used as a concrete witness input. -/
def noopPasteState : XmlReaderState :=
  ⟨⟨1, 4⟩, 480, 2, 1, ⟨1, 2⟩, none, 0, true⟩

/-- Witness for C2's amended no-op property at a concrete paste-mode
state with non-zero offsets. -/
theorem setLocation_location_noop_witness :
    ∃ st', setLocation noopPasteState (location noopPasteState false) = some st'
      ∧ st'.track = noopPasteState.track
      ∧ st'.tick.val = noopPasteState.tick.val
      ∧ st'.curMeasure = noopPasteState.curMeasure :=
  setLocation_location_noop noopPasteState (by decide) (by decide)
    (fun h => Bool.noConfusion h)

/-- A non-paste cursor state with a non-zero paste tick offset. -/
def noopCounterState : XmlReaderState :=
  ⟨⟨0, 1⟩, 0, 0, 0, ⟨1, 2⟩, some ⟨⟨0, 1⟩⟩, 0, false⟩

/-- C2 counterexample: at a cursor state outside paste mode whose paste
tick offset is one half, `setLocation(location())` moves the tick from
0 to -1/2, so it is not a no-op for every cursor state. -/
theorem setLocation_location_noop_counterexample :
    setLocation noopCounterState (location noopCounterState false)
      = some { noopCounterState with tick := ⟨-1, 2⟩, intTick := -960 }
    ∧ ¬ (Fraction.mk (-1) 2).sameVal noopCounterState.tick := by
  exact ⟨by decide, by decide⟩

/-- The cursor state of the C3 counterexample: paste mode, raw tick
1/4, integer-tick mirror 0. -/
def fastSlowState : XmlReaderState :=
  ⟨⟨1, 4⟩, 0, 0, 0, ⟨0, 1⟩, none, 0, true⟩

/-- The relative location of the C3 counterexample: tick delta 1/4. -/
def fastSlowLoc : Location :=
  ⟨0, ⟨1, 4⟩, 0, true⟩

/-- C3 counterexample: at this cursor state the fast-path guard holds
and `setLocation` takes the fast path, yet the slow path (the single
recursive call on the converted absolute location) yields a different
final cursor state — the fast path leaves the tick at 1/4 while the
slow path moves it to 1/2 — so the two paths are not equivalent. -/
theorem setLocation_fast_slow_counterexample :
    setLocationFastGuard fastSlowState fastSlowLoc
    ∧ setLocation fastSlowState fastSlowLoc
        = some (setLocationFast fastSlowState fastSlowLoc)
    ∧ (setLocationSlow fastSlowState fastSlowLoc).isSome = true
    ∧ setLocation fastSlowState fastSlowLoc ≠ setLocationSlow fastSlowState fastSlowLoc
    ∧ (setLocationFast fastSlowState fastSlowLoc).tick = ⟨1, 4⟩
    ∧ setLocationSlow fastSlowState fastSlowLoc
        = some { fastSlowState with tick := ⟨1, 2⟩, intTick := 960 } :=
  ⟨by decide, by decide, by decide, by decide, by decide, by decide⟩

/-- C3 (amended): for every relative location input, the fast path and
the slow path agree on the resulting track; the converted location is
absolute, so the slow path's recursive call lands in the non-recursive
absolute branch and recursion never goes beyond one level; and
`setLocation` takes the fast path exactly when the guard holds.  The
two paths do not in general agree on the resulting tick (see the
counterexample). -/
theorem setLocation_fast_slow_track_agree (st : XmlReaderState) (l : Location)
    (hrel : l.isRel = true) :
    (∀ s, setLocationSlow st l = some s → s.track = (setLocationFast st l).track)
    ∧ (l.toAbsolute (location st false)).isRel = false
    ∧ (setLocationFastGuard st l → setLocation st l = some (setLocationFast st l))
    ∧ (¬ setLocationFastGuard st l → setLocation st l = setLocationSlow st l) := by
  refine ⟨?_, ?_, ?_, ?_⟩
  · intro s hs
    unfold setLocationSlow setLocationAbs setTick incTick at hs
    unfold setLocationFast
    dsimp only at hs
    split at hs
    · injection hs with h
      subst h
      rfl
    · split at hs
      · exact absurd hs (by simp)
      · injection hs with h
        subst h
        rfl
  · simp [Location.toAbsolute, hrel]
  · intro hg
    simp [setLocation, hrel, hg]
  · intro hg
    simp [setLocation, hrel, hg]

/-- Witness for C3's amended fast/slow relationship at the concrete
counterexample state. -/
theorem setLocation_fast_slow_track_agree_witness :
    (fastSlowLoc.toAbsolute (location fastSlowState false)).isRel = false
    ∧ setLocation fastSlowState fastSlowLoc
        = some (setLocationFast fastSlowState fastSlowLoc) :=
  ⟨(setLocation_fast_slow_track_agree fastSlowState fastSlowLoc (by decide)).2.1,
   (setLocation_fast_slow_track_agree fastSlowState fastSlowLoc (by decide)).2.2.1
     (by decide)⟩

/-! ## User text styles (`XmlReader::addUserTextStyle`) -/

/-- Modelled from the spec: the text style identifiers relevant here —
the twelve user slots and the `TEXT_TYPES` sentinel ("no slot" /
"not found"). -/
inductive TextStyleType
  | USER1 | USER2 | USER3 | USER4 | USER5 | USER6
  | USER7 | USER8 | USER9 | USER10 | USER11 | USER12
  | TEXT_TYPES
deriving DecidableEq, Repr

/-- The slot chosen by `XmlReader::addUserTextStyle` for a given
current registry size (the source's if-chain on `userTextStyles.size()`;
sizes 12 and above fall through to the sentinel). -/
def userSlot : Nat → TextStyleType
  | 0 => .USER1
  | 1 => .USER2
  | 2 => .USER3
  | 3 => .USER4
  | 4 => .USER5
  | 5 => .USER6
  | 6 => .USER7
  | 7 => .USER8
  | 8 => .USER9
  | 9 => .USER10
  | 10 => .USER11
  | 11 => .USER12
  | _ => .TEXT_TYPES

/-- `XmlReader::addUserTextStyle`: allocate the next free slot
(first-come-first-served, capacity 12) and register the name; past
capacity the sentinel is returned and nothing is registered. -/
def addUserTextStyle (styles : List (String × TextStyleType)) (nm : String) :
    TextStyleType × List (String × TextStyleType) :=
  let id := userSlot styles.length
  if id ≠ TextStyleType.TEXT_TYPES then (id, styles ++ [(nm, id)]) else (id, styles)

/-- `XmlReader::lookupUserTextStyle`: linear scan; the sentinel is
returned when the name is not found. -/
def lookupUserTextStyle (styles : List (String × TextStyleType)) (nm : String) :
    TextStyleType :=
  match styles.find? (fun p => p.1 = nm) with
  | some p => p.2
  | none => TextStyleType.TEXT_TYPES

/-- Sequential calls of `addUserTextStyle`, returning the list of
results and the final registry. -/
def addUserTextStyles (styles : List (String × TextStyleType)) :
    List String → List TextStyleType × List (String × TextStyleType)
  | [] => ([], styles)
  | nm :: rest =>
    match addUserTextStyle styles nm with
    | (id, styles1) =>
      match addUserTextStyles styles1 rest with
      | (ids, final) => (id :: ids, final)

/-- A lookup skips a leading entry with a different name. -/
theorem lookupUserTextStyle_cons_ne (q : String × TextStyleType)
    (styles : List (String × TextStyleType)) (nm : String) (h : q.1 ≠ nm) :
    lookupUserTextStyle (q :: styles) nm = lookupUserTextStyle styles nm := by
  unfold lookupUserTextStyle
  rw [List.find?_cons_of_neg]
  simp [h]

/-- In a registry with distinct names, a lookup finds the registered
slot of a member. -/
theorem lookupUserTextStyle_of_mem (styles : List (String × TextStyleType))
    (nm : String) (t : TextStyleType) (hmem : (nm, t) ∈ styles)
    (hnd : (styles.map Prod.fst).Nodup) :
    lookupUserTextStyle styles nm = t := by
  induction styles with
  | nil => simp at hmem
  | cons q rest ih =>
    rcases List.mem_cons.mp hmem with hq | hq
    · subst hq
      unfold lookupUserTextStyle
      rw [List.find?_cons_of_pos _ (by simp)]
    · have hq1 : q.1 ≠ nm := by
        simp only [List.map_cons, List.nodup_cons] at hnd
        intro he
        exact hnd.1 (he ▸ List.mem_map_of_mem Prod.fst hq)
      rw [lookupUserTextStyle_cons_ne _ _ _ hq1]
      exact ih hq (by simpa using (List.nodup_cons.mp (by simpa using hnd)).2)

/-- A lookup of an unregistered name yields the sentinel. -/
theorem lookupUserTextStyle_of_not_mem (styles : List (String × TextStyleType))
    (nm : String) (h : nm ∉ styles.map Prod.fst) :
    lookupUserTextStyle styles nm = TextStyleType.TEXT_TYPES := by
  unfold lookupUserTextStyle
  have hnone : styles.find? (fun p => p.1 = nm) = none := by
    rw [List.find?_eq_none]
    intro p hp
    simp only [decide_eq_true_eq]
    intro he
    exact h (he ▸ List.mem_map_of_mem Prod.fst hp)
  simp [hnone]

/-- C9: calling `addUserTextStyle` 13 times with 13 distinct names
assigns `USER1` through `USER12` first-come-first-served to the first
12 calls and returns the no-slot sentinel on the 13th; afterwards
`lookupUserTextStyle` returns the assigned slot for each of the first
12 names and the not-found sentinel for the 13th. -/
theorem addUserTextStyle_capacity (ns : List String) (hlen : ns.length = 13)
    (hdist : ns.Pairwise (fun x y => x ≠ y)) :
    (addUserTextStyles [] ns).1
      = [.USER1, .USER2, .USER3, .USER4, .USER5, .USER6, .USER7, .USER8,
         .USER9, .USER10, .USER11, .USER12, .TEXT_TYPES]
    ∧ (∀ i, i < 12 →
        lookupUserTextStyle (addUserTextStyles [] ns).2 (ns.getD i "") = userSlot i)
    ∧ lookupUserTextStyle (addUserTextStyles [] ns).2 (ns.getD 12 "")
        = TextStyleType.TEXT_TYPES := by
  rcases ns with _ | ⟨a0, ns⟩; · simp at hlen
  rcases ns with _ | ⟨a1, ns⟩; · simp at hlen
  rcases ns with _ | ⟨a2, ns⟩; · simp at hlen
  rcases ns with _ | ⟨a3, ns⟩; · simp at hlen
  rcases ns with _ | ⟨a4, ns⟩; · simp at hlen
  rcases ns with _ | ⟨a5, ns⟩; · simp at hlen
  rcases ns with _ | ⟨a6, ns⟩; · simp at hlen
  rcases ns with _ | ⟨a7, ns⟩; · simp at hlen
  rcases ns with _ | ⟨a8, ns⟩; · simp at hlen
  rcases ns with _ | ⟨a9, ns⟩; · simp at hlen
  rcases ns with _ | ⟨a10, ns⟩; · simp at hlen
  rcases ns with _ | ⟨a11, ns⟩; · simp at hlen
  rcases ns with _ | ⟨a12, ns⟩; · simp at hlen
  obtain rfl : ns = [] := by simpa using hlen
  have hget := List.pairwise_iff_get.mp hdist
  have hnd : (([(a0, TextStyleType.USER1), (a1, .USER2), (a2, .USER3), (a3, .USER4),
      (a4, .USER5), (a5, .USER6), (a6, .USER7), (a7, .USER8), (a8, .USER9),
      (a9, .USER10), (a10, .USER11), (a11, .USER12)] :
      List (String × TextStyleType)).map Prod.fst).Nodup := by
    have hsub : ([a0, a1, a2, a3, a4, a5, a6, a7, a8, a9, a10, a11] : List String).Sublist
        [a0, a1, a2, a3, a4, a5, a6, a7, a8, a9, a10, a11, a12] :=
      List.sublist_append_left [a0, a1, a2, a3, a4, a5, a6, a7, a8, a9, a10, a11] [a12]
    exact hdist.sublist hsub
  have hstate : (addUserTextStyles []
      [a0, a1, a2, a3, a4, a5, a6, a7, a8, a9, a10, a11, a12]).2
      = [(a0, TextStyleType.USER1), (a1, .USER2), (a2, .USER3), (a3, .USER4),
         (a4, .USER5), (a5, .USER6), (a6, .USER7), (a7, .USER8), (a8, .USER9),
         (a9, .USER10), (a10, .USER11), (a11, .USER12)] := by
    simp [addUserTextStyles, addUserTextStyle, userSlot]
  refine ⟨by simp [addUserTextStyles, addUserTextStyle, userSlot], ?_, ?_⟩
  · intro i hi
    rw [hstate]
    interval_cases i
    · exact lookupUserTextStyle_of_mem _ _ _ (by simp [userSlot]) hnd
    · exact lookupUserTextStyle_of_mem _ _ _ (by simp [userSlot]) hnd
    · exact lookupUserTextStyle_of_mem _ _ _ (by simp [userSlot]) hnd
    · exact lookupUserTextStyle_of_mem _ _ _ (by simp [userSlot]) hnd
    · exact lookupUserTextStyle_of_mem _ _ _ (by simp [userSlot]) hnd
    · exact lookupUserTextStyle_of_mem _ _ _ (by simp [userSlot]) hnd
    · exact lookupUserTextStyle_of_mem _ _ _ (by simp [userSlot]) hnd
    · exact lookupUserTextStyle_of_mem _ _ _ (by simp [userSlot]) hnd
    · exact lookupUserTextStyle_of_mem _ _ _ (by simp [userSlot]) hnd
    · exact lookupUserTextStyle_of_mem _ _ _ (by simp [userSlot]) hnd
    · exact lookupUserTextStyle_of_mem _ _ _ (by simp [userSlot]) hnd
    · exact lookupUserTextStyle_of_mem _ _ _ (by simp [userSlot]) hnd
  · rw [hstate]
    apply lookupUserTextStyle_of_not_mem
    simp only [List.map_cons, List.map_nil, List.mem_cons, List.not_mem_nil, or_false]
    push_neg
    refine ⟨?_, ?_, ?_, ?_, ?_, ?_, ?_, ?_, ?_, ?_, ?_, ?_⟩
    · exact (hget ⟨0, by omega⟩ ⟨12, by omega⟩ (by simp)).symm
    · exact (hget ⟨1, by omega⟩ ⟨12, by omega⟩ (by simp)).symm
    · exact (hget ⟨2, by omega⟩ ⟨12, by omega⟩ (by simp)).symm
    · exact (hget ⟨3, by omega⟩ ⟨12, by omega⟩ (by simp)).symm
    · exact (hget ⟨4, by omega⟩ ⟨12, by omega⟩ (by simp)).symm
    · exact (hget ⟨5, by omega⟩ ⟨12, by omega⟩ (by simp)).symm
    · exact (hget ⟨6, by omega⟩ ⟨12, by omega⟩ (by simp)).symm
    · exact (hget ⟨7, by omega⟩ ⟨12, by omega⟩ (by simp)).symm
    · exact (hget ⟨8, by omega⟩ ⟨12, by omega⟩ (by simp)).symm
    · exact (hget ⟨9, by omega⟩ ⟨12, by omega⟩ (by simp)).symm
    · exact (hget ⟨10, by omega⟩ ⟨12, by omega⟩ (by simp)).symm
    · exact (hget ⟨11, by omega⟩ ⟨12, by omega⟩ (by simp)).symm

/-- Witness for C9 at thirteen concrete distinct names. -/
theorem addUserTextStyle_capacity_witness :
    (addUserTextStyles []
        ["n0", "n1", "n2", "n3", "n4", "n5", "n6", "n7", "n8", "n9", "n10",
         "n11", "n12"]).1
      = [.USER1, .USER2, .USER3, .USER4, .USER5, .USER6, .USER7, .USER8,
         .USER9, .USER10, .USER11, .USER12, .TEXT_TYPES]
    ∧ lookupUserTextStyle (addUserTextStyles []
        ["n0", "n1", "n2", "n3", "n4", "n5", "n6", "n7", "n8", "n9", "n10",
         "n11", "n12"]).2
        (["n0", "n1", "n2", "n3", "n4", "n5", "n6", "n7", "n8", "n9", "n10",
          "n11", "n12"].getD 4 "") = userSlot 4
    ∧ lookupUserTextStyle (addUserTextStyles []
        ["n0", "n1", "n2", "n3", "n4", "n5", "n6", "n7", "n8", "n9", "n10",
         "n11", "n12"]).2
        (["n0", "n1", "n2", "n3", "n4", "n5", "n6", "n7", "n8", "n9", "n10",
          "n11", "n12"].getD 12 "") = TextStyleType.TEXT_TYPES := by
  have h := addUserTextStyle_capacity
    ["n0", "n1", "n2", "n3", "n4", "n5", "n6", "n7", "n8", "n9", "n10",
     "n11", "n12"] (by decide) (by decide)
  exact ⟨h.1, h.2.1 4 (by norm_num), h.2.2⟩

/-! ## Ascending insertion sort used by the tuplet and repair models -/

/-- Insert into a list sorted ascending by `key`. -/
def insertAsc (key : α → Int) (x : α) : List α → List α
  | [] => [x]
  | y :: ys => if key x ≤ key y then x :: y :: ys else y :: insertAsc key x ys

/-- Stable ascending sort by `key` (models `std::sort` /
`Tuplet::sortElements` orderings, which the claims only use on
distinct keys). -/
def sortAsc (key : α → Int) (l : List α) : List α :=
  l.foldr (insertAsc key) []

/-! ## Tuplet finalization (`XmlReader::checkTuplets`) -/

/-- Modelled from the spec: the tuplet data relevant to finalization —
its id and the onset times of its contained elements. -/
structure Tuplet where
  tid : Int
  elements : List Int
deriving DecidableEq, Repr

/-- The calls `checkTuplets` makes on tuplet objects, in order:
`delete`, `sortElements`, `sanitizeTuplet`, `addMissingElements`. -/
inductive TupletEvent
  | deleted (tid : Int)
  | sortedElements (tid : Int)
  | sanitized (tid : Int)
  | addedMissing (tid : Int)
deriving DecidableEq, Repr

/-- Pass 1 of `XmlReader::checkTuplets`, in registry order: an empty
tuplet's object is deleted (`delete tuplet`) but — exactly as in the
source — its registry entry is not removed; a non-empty tuplet has its
elements sorted ascending and is then sanitized (sanitization is an
external structural repair, represented by its trace event).  Returns
the event trace and the registry after the pass, each entry marked with
whether its object was freed. -/
def checkTupletsPass1 : List Tuplet → List TupletEvent × List (Tuplet × Bool)
  | [] => ([], [])
  | t :: rest =>
    match checkTupletsPass1 rest with
    | (ev, reg) =>
      if t.elements.isEmpty then
        (TupletEvent.deleted t.tid :: ev, (t, true) :: reg)
      else
        (TupletEvent.sortedElements t.tid :: TupletEvent.sanitized t.tid :: ev,
         ({ t with elements := sortAsc id t.elements }, false) :: reg)

/-- Pass 2 of `XmlReader::checkTuplets`: `addMissingElements` on every
tuplet still reachable from the registry — including, as in the source,
entries whose object pass 1 freed. -/
def checkTupletsPass2 (reg : List (Tuplet × Bool)) : List TupletEvent :=
  reg.map (fun p => TupletEvent.addedMissing p.1.tid)

/-- `XmlReader::checkTuplets`: pass 1 over all tuplets, then pass 2
over the same registry. -/
def checkTuplets (ts : List Tuplet) : List TupletEvent × List (Tuplet × Bool) :=
  match checkTupletsPass1 ts with
  | (ev, reg) => (ev ++ checkTupletsPass2 reg, reg)

/-- C7 evaluated at the failing input: on a registry holding one empty
tuplet (id 1), pass 1 deletes the object but leaves it registered
(`(emptyTuplet, true)` — freed yet still in the registry), and pass 2
still calls `addMissingElements` on the freed tuplet; the empty tuplet
is never sorted or sanitized.  On a non-empty tuplet streamed out of
time order, the elements are sorted ascending before sanitization, and
the fill-in pass runs only after pass 1 completed for every tuplet. -/
theorem checkTuplets_empty_tuplet_use_after_free :
    (checkTuplets [⟨1, []⟩]).1
      = [TupletEvent.deleted 1, TupletEvent.addedMissing 1]
    ∧ (checkTuplets [⟨1, []⟩]).2 = [(⟨1, []⟩, true)]
    ∧ (checkTuplets [⟨2, [30, 10, 20]⟩, ⟨3, [5]⟩]).1
      = [TupletEvent.sortedElements 2, TupletEvent.sanitized 2,
         TupletEvent.sortedElements 3, TupletEvent.sanitized 3,
         TupletEvent.addedMissing 2, TupletEvent.addedMissing 3]
    ∧ (checkTuplets [⟨2, [30, 10, 20]⟩, ⟨3, [5]⟩]).2
      = [(⟨2, [10, 20, 30]⟩, false), (⟨3, [5]⟩, false)] := by
  exact ⟨by decide, by decide, by decide, by decide⟩

/-! ## Connector resolver (`XmlReader::addConnectorInfo` and friends)

Connector fragments live in an arena (handles are indices; entries are
never physically removed, mirroring pointer identity in the source),
and `_connectors` is the list of live handles. -/

/-- Modelled from the spec: the role of a connector fragment — the
start or the end endpoint of the connector (`stop` stands for the
reserved word `end`). -/
inductive Role
  | start
  | stop
deriving DecidableEq, Repr, Inhabited

/-- Modelled from the spec: the connector kinds the teardown
distinguishes — tuplet-type connectors versus all others. -/
inductive ConnType
  | tuplet
  | other
deriving DecidableEq, Repr, Inhabited

/-- Modelled from the spec: one connector fragment
(`ConnectorInfoReader`): grouping id, connector type, role, anchor
tick, the neighbour links (arena handles for `prev`/`next`), and the
underlying connector element it holds, if any (an id into the score
model, for the teardown contract). -/
structure ConnectorInfoReader where
  cid : Int
  ctype : ConnType
  role : Role
  tick : Int
  prev : Option Nat := none
  next : Option Nat := none
  connItem : Option Int := none
deriving DecidableEq, Repr, Inhabited

/-- The fragment stored at a handle (out-of-range handles yield the
default fragment; the theorems only use in-range handles). -/
def fragAt (arena : List ConnectorInfoReader) (h : Nat) : ConnectorInfoReader :=
  arena.getD h default

/-- The connector pool of the reader session: fragment arena, the
`_connectors` list of live handles, the chains committed to the score
by `addToScore` (chain head and the paste mode used), and the
paste-mode flag. -/
structure ConnectorState where
  arena : List ConnectorInfoReader
  conns : List Nat
  committed : List (Nat × Bool)
  paste : Bool
deriving DecidableEq, Repr

/-- Walk `prev` links for at most `fuel` steps (`while (c->prev())`). -/
def headOfAux (arena : List ConnectorInfoReader) : Nat → Nat → Nat
  | 0, h => h
  | fuel + 1, h =>
    match (fragAt arena h).prev with
    | some p => headOfAux arena fuel p
    | none => h

/-- The head of the chain containing `h` (`ConnectorInfo::start`). -/
def headOf (arena : List ConnectorInfoReader) (h : Nat) : Nat :=
  headOfAux arena arena.length h

/-- Walk `next` links for at most `fuel` steps, collecting handles. -/
def chainOfAux (arena : List ConnectorInfoReader) : Nat → Nat → List Nat
  | 0, h => [h]
  | fuel + 1, h =>
    match (fragAt arena h).next with
    | some n => h :: chainOfAux arena fuel n
    | none => [h]

/-- All handles of the chain containing `h`, from its head. -/
def chainOf (arena : List ConnectorInfoReader) (h : Nat) : List Nat :=
  chainOfAux arena arena.length (headOf arena h)

/-- Set the neighbour links of a joined pair: `hFrom` continues into
`hTo`. -/
def linkFrags (arena : List ConnectorInfoReader) (hFrom hTo : Nat) :
    List ConnectorInfoReader :=
  let arena1 := arena.set hFrom { fragAt arena hFrom with next := some hTo }
  arena1.set hTo { fragAt arena1 hTo with prev := some hFrom }

/-- Modelled from the spec: a chain is `finished()` when both required
endpoints have been supplied and the anchors are structurally
consistent — the start anchor temporally precedes the end anchor. -/
def finished (arena : List ConnectorInfoReader) (h : Nat) : Bool :=
  match chainOf arena h with
  | [a, b] =>
    decide ((fragAt arena a).role = Role.start)
      && decide ((fragAt arena b).role = Role.stop)
      && decide ((fragAt arena a).tick ≤ (fragAt arena b).tick)
  | _ => false

/-- Modelled from the spec: `ConnectorInfoReader::connect` — the new
fragment `h1` joins the chain of `h2` exactly when their ids and types
match and the roles are complementary with consistent ordering; on
success the appropriate neighbour links are set (in either direction). -/
def connect (arena : List ConnectorInfoReader) (h2 h1 : Nat) :
    Option (List ConnectorInfoReader) :=
  let c2 := fragAt arena h2
  let c1 := fragAt arena h1
  if c2.cid = c1.cid ∧ c2.ctype = c1.ctype then
    if c2.role = Role.start ∧ c1.role = Role.stop ∧ c2.next = none ∧ c1.prev = none
        ∧ c2.tick ≤ c1.tick then
      some (linkFrags arena h2 h1)
    else if c2.role = Role.stop ∧ c1.role = Role.start ∧ c1.next = none ∧ c2.prev = none
        ∧ c1.tick ≤ c2.tick then
      some (linkFrags arena h1 h2)
    else none
  else none

/-- The scan loop of `addConnectorInfo`: try `connect` against each
live chain in insertion order, stopping at the first success. -/
def firstConnect (arena : List ConnectorInfoReader) (h1 : Nat) :
    List Nat → Option (Nat × List ConnectorInfoReader)
  | [] => none
  | h2 :: rest =>
    match connect arena h2 h1 with
    | some arena2 => some (h2, arena2)
    | none => firstConnect arena h1 rest

/-- `XmlReader::removeConnector`: walk to the chain head, then erase
every member of the chain from the live list. -/
def removeConnector (arena : List ConnectorInfoReader) (conns : List Nat)
    (h : Nat) : List Nat :=
  (chainOf arena h).foldl (fun cs m => cs.erase m) conns

/-- `XmlReader::addConnectorInfo`: append the new fragment to the pool
(`update()` recomputes cached locations, a no-op here), scan the live
chains in insertion order for the first that `connect`s, and if that
join finishes the chain, commit it to the score under the current paste
mode and remove the whole chain from the live list. -/
def addConnectorInfo (st : ConnectorState) (f : ConnectorInfoReader) :
    ConnectorState :=
  let h1 := st.arena.length
  let arena := st.arena ++ [f]
  let conns := st.conns ++ [h1]
  match firstConnect arena h1 conns with
  | none => { st with arena := arena, conns := conns }
  | some (h2, arena2) =>
    if finished arena2 h2 then
      { arena := arena2,
        conns := removeConnector arena2 conns h2,
        committed := st.committed ++ [(headOf arena2 h2, st.paste)],
        paste := st.paste }
    else { st with arena := arena2, conns := conns }

/-! ## Broken-connector repair (`XmlReader::reconnectBrokenConnectors`) -/

/-- The `INT_MAX` sentinel of the repair pass. -/
def INT_MAX : Int := 2 ^ 31 - 1

/-- Modelled from the spec: `connectionDistance` — a non-negative tick
distance when the first chain's end is open and could plausibly
continue into the second chain's open start, the negated distance of
the swapped roles when the plausible continuation runs the other way,
and the infinite sentinel when no plausible direction exists (or the
types differ). -/
def connectionDistance (arena : List ConnectorInfoReader) (h1 h2 : Nat) : Int :=
  let c1 := fragAt arena h1
  let c2 := fragAt arena h2
  if c1.ctype = c2.ctype ∧ c1.role = Role.start ∧ c1.next = none
      ∧ c2.role = Role.stop ∧ c2.prev = none then
    ((c2.tick - c1.tick).natAbs : Int)
  else if c1.ctype = c2.ctype ∧ c2.role = Role.start ∧ c2.next = none
      ∧ c1.role = Role.stop ∧ c1.prev = none then
    -((c1.tick - c2.tick).natAbs : Int)
  else INT_MAX

/-- One candidate of the repair pass, oriented by the distance's sign
exactly as in the source loop body. -/
def pairEntry (arena : List ConnectorInfoReader) (ci cj : Nat) : Int × Nat × Nat :=
  let d := connectionDistance arena ci cj
  if 0 ≤ d then (d, ci, cj) else (-d, cj, ci)

/-- The candidate list of the repair pass: one directed entry per
unordered pair of live handles (`i` from 1, `j < i`). -/
def brokenPairs (arena : List ConnectorInfoReader) (conns : List Nat) :
    List (Int × Nat × Nat) :=
  (List.range conns.length).flatMap (fun i =>
    (List.range i).map (fun j => pairEntry arena (conns.getD i 0) (conns.getD j 0)))

/-- The greedy joining loop of the repair pass: skip the infinite
sentinel; skip a candidate whose from-side already has a successor or
whose to-side already has a predecessor; otherwise force-join
(`forceConnect`). -/
def processJoins (arena : List ConnectorInfoReader) :
    List (Int × Nat × Nat) → List ConnectorInfoReader
  | [] => arena
  | (d, hf, ht) :: rest =>
    if d = INT_MAX then processJoins arena rest
    else if (fragAt arena hf).next ≠ none ∨ (fragAt arena ht).prev ≠ none then
      processJoins arena rest
    else processJoins (linkFrags arena hf ht) rest

/-- `XmlReader::reconnectBrokenConnectors`: nothing to do when no
connectors are live; otherwise sort the candidates ascending by
distance, force-join greedily, then commit every chain that became
finished (each chain once, via its head) and remove it from the live
list. -/
def reconnectBrokenConnectors (st : ConnectorState) : ConnectorState :=
  if st.conns.isEmpty then st
  else
    let sorted := sortAsc (fun p => p.1) (brokenPairs st.arena st.conns)
    let arena2 := processJoins st.arena sorted
    let heads :=
      (((st.conns.filter (fun h => finished arena2 h)).map
        (fun h => headOf arena2 h)).dedup)
    heads.foldl
      (fun acc hd =>
        { acc with
          committed := acc.committed ++ [(hd, st.paste)],
          conns := removeConnector acc.arena acc.conns hd })
      { st with arena := arena2 }

/-! ## Teardown (`XmlReader::~XmlReader`) -/

/-- `~XmlReader`, release part: every leftover fragment — active or
pending — has its connector element released back to a raw unattached
state (`releaseConnector`). -/
def dtorReleased (active pending : List ConnectorInfoReader) :
    List ConnectorInfoReader :=
  (active ++ pending).map (fun c => { c with connItem := none })

/-- `~XmlReader`, discard part: the pairs (fragment, element) whose
element is deleted — an active fragment's element is deleted when
present and not of tuplet type (`if (conn && !conn->isTuplet()) delete
conn;`), a pending fragment's element is deleted whenever present
(`delete c->releaseConnector();`, with no tuplet check). -/
def dtorDeleted (active pending : List ConnectorInfoReader) :
    List (ConnectorInfoReader × Int) :=
  (active.filterMap (fun c =>
    match c.connItem with
    | some it => if c.ctype ≠ ConnType.tuplet then some (c, it) else none
    | none => none))
  ++ pending.filterMap (fun c => c.connItem.map (fun it => (c, it)))

/-! ## Sorting and repair lemmas, C5 and C6 theorems -/

/-- Membership in an ascending insertion. -/
theorem mem_insertAsc (key : α → Int) (x y : α) (l : List α) :
    y ∈ insertAsc key x l ↔ y = x ∨ y ∈ l := by
  induction l with
  | nil => simp [insertAsc]
  | cons z zs ih =>
    unfold insertAsc
    by_cases h : key x ≤ key z
    · simp [h]
    · simp [h, ih]
      tauto

/-- Ascending insertion permutes consing. -/
theorem insertAsc_perm (key : α → Int) (x : α) (l : List α) :
    (insertAsc key x l).Perm (x :: l) := by
  induction l with
  | nil => simp [insertAsc]
  | cons z zs ih =>
    unfold insertAsc
    by_cases h : key x ≤ key z
    · rw [if_pos h]
    · rw [if_neg h]
      exact (List.Perm.cons z ih).trans (List.Perm.swap x z zs)

/-- Ascending insertion preserves sortedness. -/
theorem insertAsc_pairwise (key : α → Int) (x : α) (l : List α)
    (hl : l.Pairwise (fun a b => key a ≤ key b)) :
    (insertAsc key x l).Pairwise (fun a b => key a ≤ key b) := by
  induction l with
  | nil => simp [insertAsc]
  | cons z zs ih =>
    unfold insertAsc
    rcases List.pairwise_cons.mp hl with ⟨hz, hzs⟩
    by_cases h : key x ≤ key z
    · rw [if_pos h]
      refine List.Pairwise.cons ?_ hl
      intro b hb
      rcases List.mem_cons.mp hb with rfl | hb
      · exact h
      · exact le_trans h (hz b hb)
    · rw [if_neg h]
      refine List.Pairwise.cons ?_ (ih hzs)
      intro b hb
      rcases (mem_insertAsc key x b zs).mp hb with rfl | hb
      · exact le_of_not_le h
      · exact hz b hb

/-- `sortAsc` sorts ascending by the key. -/
theorem sortAsc_pairwise (key : α → Int) (l : List α) :
    (sortAsc key l).Pairwise (fun a b => key a ≤ key b) := by
  induction l with
  | nil => simp [sortAsc]
  | cons x xs ih => exact insertAsc_pairwise key x _ ih

/-- `sortAsc` permutes its input. -/
theorem sortAsc_perm (key : α → Int) (l : List α) : (sortAsc key l).Perm l := by
  induction l with
  | nil => exact List.Perm.refl _
  | cons x xs ih =>
    have h1 : sortAsc key (x :: xs) = insertAsc key x (sortAsc key xs) := rfl
    rw [h1]
    exact (insertAsc_perm key x (sortAsc key xs)).trans (List.Perm.cons x ih)


/-- Chain A of the C5 example: end open (a start-role fragment), last
anchor at tick 100. -/
def fragA : ConnectorInfoReader := ⟨10, .other, .start, 100, none, none, some 1⟩
/-- Chain B of the C5 example: start open (an end-role fragment),
first anchor at tick 102. -/
def fragB : ConnectorInfoReader := ⟨11, .other, .stop, 102, none, none, some 2⟩
/-- Chain C of the C5 example: start open, first anchor at tick 150. -/
def fragC : ConnectorInfoReader := ⟨12, .other, .stop, 150, none, none, some 3⟩
/-- The C5 example pool: three unfinished singleton chains A, B, C. -/
def repairState : ConnectorState := ⟨[fragA, fragB, fragC], [0, 1, 2], [], false⟩

/-- C5: the repair pass collects a directed (distance, pair) candidate
for every unordered pair of distinct live chains, sorts the candidates
ascending by distance (a permutation of the collected list), never
joins a candidate at the infinite sentinel, and skips a candidate whose
from-chain already has a successor or whose to-chain already has a
predecessor; on the A/B/C example the sorted candidates put A→B
(distance 2) before A→C (distance 50) with the B/C pair at the
sentinel, so repair joins A to B, skips A→C (A already has a
successor), commits the finished A–B chain once, and leaves C alone —
B is never paired twice. -/
theorem reconnectBrokenConnectors_spec :
    (∀ (arena : List ConnectorInfoReader) (conns : List Nat) (i j : Nat),
        j < i → i < conns.length →
        pairEntry arena (conns.getD i 0) (conns.getD j 0) ∈ brokenPairs arena conns)
    ∧ (∀ (arena : List ConnectorInfoReader) (conns : List Nat),
        (sortAsc (fun p => p.1) (brokenPairs arena conns)).Pairwise
          (fun a b => a.1 ≤ b.1)
        ∧ (sortAsc (fun p => p.1) (brokenPairs arena conns)).Perm
            (brokenPairs arena conns))
    ∧ (∀ (arena : List ConnectorInfoReader) (l : List (Int × Nat × Nat)),
        (∀ e ∈ l, e.1 = INT_MAX) → processJoins arena l = arena)
    ∧ (∀ (arena : List ConnectorInfoReader) (d : Int) (hf ht : Nat)
        (rest : List (Int × Nat × Nat)),
        ((fragAt arena hf).next ≠ none ∨ (fragAt arena ht).prev ≠ none) →
        processJoins arena ((d, hf, ht) :: rest) = processJoins arena rest)
    ∧ sortAsc (fun p => p.1) (brokenPairs repairState.arena repairState.conns)
        = [(2, 0, 1), (50, 0, 2), (INT_MAX, 2, 1)]
    ∧ reconnectBrokenConnectors repairState
        = { arena :=
              [{ fragA with next := some 1 }, { fragB with prev := some 0 }, fragC],
            conns := [2], committed := [(0, false)], paste := false } := by
  refine ⟨?_, ?_, ?_, ?_, by decide, by decide⟩
  · intro arena conns i j hji hi
    unfold brokenPairs
    simp only [List.mem_flatMap, List.mem_map, List.mem_range]
    exact ⟨i, hi, j, hji, rfl⟩
  · intro arena conns
    exact ⟨sortAsc_pairwise _ _, sortAsc_perm _ _⟩
  · intro arena l h
    induction l with
    | nil => rfl
    | cons e rest ih =>
      match e with
      | (d, hf, ht) =>
        have hd : d = INT_MAX := h (d, hf, ht) (List.mem_cons_self _ _)
        unfold processJoins
        rw [if_pos hd]
        exact ih (fun e he => h e (List.mem_cons_of_mem _ he))
  · intro arena d hf ht rest hocc
    conv_lhs => rw [processJoins]
    by_cases hd : d = INT_MAX
    · rw [if_pos hd]
    · rw [if_neg hd, if_pos hocc]

/-- Witness for C5's general clauses at concrete inputs: the A/B pair
candidate is collected; an all-sentinel candidate list joins nothing;
a candidate whose from-side is occupied is skipped. -/
theorem reconnectBrokenConnectors_spec_witness :
    pairEntry repairState.arena (repairState.conns.getD 1 0)
        (repairState.conns.getD 0 0)
      ∈ brokenPairs repairState.arena repairState.conns
    ∧ processJoins repairState.arena [(INT_MAX, 2, 1)] = repairState.arena
    ∧ processJoins
        [{ fragA with next := some 1 }, { fragB with prev := some 0 }, fragC]
        [(7, 0, 2)]
      = processJoins
        [{ fragA with next := some 1 }, { fragB with prev := some 0 }, fragC] [] :=
  ⟨reconnectBrokenConnectors_spec.1 repairState.arena repairState.conns 1 0
      (by norm_num) (by decide),
   reconnectBrokenConnectors_spec.2.2.1 repairState.arena [(INT_MAX, 2, 1)]
      (by decide),
   reconnectBrokenConnectors_spec.2.2.2.1
      [{ fragA with next := some 1 }, { fragB with prev := some 0 }, fragC]
      7 0 2 [] (by decide)⟩

/-- C6 counterexample: a pending tuplet-type connector fragment is NOT
preserved — `~XmlReader` runs `delete c->releaseConnector()` over
`_pendingConnectors` with no tuplet check, so the pending tuplet's
element (id 7) is deleted. -/
theorem dtor_pending_tuplet_counterexample :
    dtorDeleted [] [⟨5, ConnType.tuplet, Role.start, 0, none, none, some 7⟩]
      = [(⟨5, ConnType.tuplet, Role.start, 0, none, none, some 7⟩, 7)] := by
  decide

/-- C6 (amended): at teardown every leftover fragment (active or
pending) is released back to a raw unattached state; an active
fragment's element is deleted exactly when present and not of tuplet
type — so tuplet-type connectors in `activeConnectors` are preserved —
while a pending fragment's element is deleted unconditionally, tuplet
or not. -/
theorem dtor_release_discard (active pending : List ConnectorInfoReader) :
    (∀ c ∈ dtorReleased active pending, c.connItem = none)
    ∧ (∀ c ∈ active, ∀ it : Int, c.connItem = some it →
        c.ctype ≠ ConnType.tuplet → (c, it) ∈ dtorDeleted active pending)
    ∧ (∀ c ∈ pending, ∀ it : Int, c.connItem = some it →
        (c, it) ∈ dtorDeleted active pending)
    ∧ (∀ (c : ConnectorInfoReader) (it : Int), (c, it) ∈ dtorDeleted active pending →
        c.connItem = some it ∧ (c.ctype ≠ ConnType.tuplet ∨ c ∈ pending)) := by
  refine ⟨?_, ?_, ?_, ?_⟩
  · intro c hc
    unfold dtorReleased at hc
    rcases List.mem_map.mp hc with ⟨c1, _, rfl⟩
    rfl
  · intro c hc it hit hty
    unfold dtorDeleted
    apply List.mem_append_left
    apply List.mem_filterMap.mpr
    exact ⟨c, hc, by rw [hit]; simp [hty]⟩
  · intro c hc it hit
    unfold dtorDeleted
    apply List.mem_append_right
    apply List.mem_filterMap.mpr
    exact ⟨c, hc, by rw [hit]; rfl⟩
  · intro c it hmem
    unfold dtorDeleted at hmem
    rcases List.mem_append.mp hmem with hm | hm
    · rcases List.mem_filterMap.mp hm with ⟨c1, hc1, he⟩
      cases hcon : c1.connItem with
      | none => rw [hcon] at he; exact absurd he (by simp)
      | some it1 =>
        rw [hcon] at he
        dsimp only at he
        by_cases hty : c1.ctype ≠ ConnType.tuplet
        · rw [if_pos hty] at he
          injection he with he2
          injection he2 with he3 he4
          subst he3
          subst he4
          exact ⟨hcon, Or.inl hty⟩
        · rw [if_neg hty] at he
          exact absurd he (by simp)
    · rcases List.mem_filterMap.mp hm with ⟨c1, hc1, he⟩
      cases hcon : c1.connItem with
      | none => rw [hcon] at he; exact absurd he (by simp)
      | some it1 =>
        rw [hcon] at he
        dsimp only [Option.map] at he
        injection he with he2
        injection he2 with he3 he4
        subst he3
        subst he4
        exact ⟨hcon, Or.inr hc1⟩

/-- Active leftovers for the C6 witness: one non-tuplet, one tuplet. -/
def dtorActiveEx : List ConnectorInfoReader :=
  [⟨1, .other, .start, 0, none, none, some 4⟩,
   ⟨2, .tuplet, .start, 0, none, none, some 5⟩]

/-- Pending leftovers for the C6 witness: one tuplet. -/
def dtorPendingEx : List ConnectorInfoReader :=
  [⟨3, .tuplet, .stop, 0, none, none, some 6⟩]

/-- Witness for C6's amended contract: the active non-tuplet element
and the pending tuplet element are both deleted. -/
theorem dtor_release_discard_witness :
    (⟨(⟨1, .other, .start, 0, none, none, some 4⟩ : ConnectorInfoReader), 4⟩
        ∈ dtorDeleted dtorActiveEx dtorPendingEx)
    ∧ (⟨(⟨3, .tuplet, .stop, 0, none, none, some 6⟩ : ConnectorInfoReader), 6⟩
        ∈ dtorDeleted dtorActiveEx dtorPendingEx) :=
  ⟨(dtor_release_discard dtorActiveEx dtorPendingEx).2.1 _ (by decide) 4 rfl
      (by decide),
   (dtor_release_discard dtorActiveEx dtorPendingEx).2.2.1 _ (by decide) 6 rfl⟩

/-! ## C4: `addConnectorInfo` -/

/-- Reading the arena after a `set`. -/
theorem fragAt_set (arena : List ConnectorInfoReader) (i : Nat)
    (x : ConnectorInfoReader) (j : Nat) (hi : i < arena.length) :
    fragAt (arena.set i x) j = if j = i then x else fragAt arena j := by
  unfold fragAt
  rw [List.getD_eq_getElem?_getD, List.getD_eq_getElem?_getD]
  by_cases h : j = i
  · subst h
    rw [if_pos rfl, List.getElem?_set_self hi]
    rfl
  · rw [if_neg h, List.getElem?_set_ne (fun he => h he.symm)]

/-- Reading the left part of an appended arena. -/
theorem fragAt_append_left (l1 l2 : List ConnectorInfoReader) (h : Nat)
    (hlt : h < l1.length) : fragAt (l1 ++ l2) h = fragAt l1 h := by
  unfold fragAt
  rw [List.getD_eq_getElem?_getD, List.getD_eq_getElem?_getD,
    List.getElem?_append, if_pos hlt]

/-- Reading the freshly appended fragment. -/
theorem fragAt_concat (l : List ConnectorInfoReader) (f : ConnectorInfoReader) :
    fragAt (l ++ [f]) l.length = f := by
  unfold fragAt
  rw [List.getD_eq_getElem?_getD, List.getElem?_concat_length]
  rfl

/-- A fragment never connects to itself: complementary roles are
required, and a fragment has only one role. -/
theorem connect_self_none (arena : List ConnectorInfoReader) (h : Nat) :
    connect arena h h = none := by
  unfold connect
  cases h1 : (fragAt arena h).role <;> simp [h1]

/-- The scan of `addConnectorInfo` includes the freshly pushed
fragment itself, but that attempt always fails, so the scan is
equivalent to scanning the previously existing chains. -/
theorem firstConnect_append_self (arena : List ConnectorInfoReader) (h1 : Nat)
    (l : List Nat) :
    firstConnect arena h1 (l ++ [h1]) = firstConnect arena h1 l := by
  induction l with
  | nil => simp [firstConnect, connect_self_none]
  | cons h2 rest ih =>
    rw [List.cons_append]
    unfold firstConnect
    cases hc : connect arena h2 h1 with
    | some a2 => rfl
    | none => exact ih

/-- First-match: the chain the scan connects to is the first one in
insertion order for which `connect` succeeds. -/
theorem firstConnect_eq_find (arena : List ConnectorInfoReader) (h1 : Nat)
    (l : List Nat) :
    (firstConnect arena h1 l).map Prod.fst
      = l.find? (fun h2 => (connect arena h2 h1).isSome) := by
  induction l with
  | nil => rfl
  | cons h2 rest ih =>
    unfold firstConnect
    cases hc : connect arena h2 h1 with
    | some a2 =>
      rw [List.find?_cons_of_pos _ (by simp [hc])]
      rfl
    | none =>
      rw [List.find?_cons_of_neg _ (by simp [hc])]
      exact ih

/-- A successful scan yields a member of the scanned list together
with its successful `connect` result. -/
theorem firstConnect_some (arena : List ConnectorInfoReader) (h1 : Nat)
    (l : List Nat) (h2 : Nat) (arena2 : List ConnectorInfoReader)
    (h : firstConnect arena h1 l = some (h2, arena2)) :
    h2 ∈ l ∧ connect arena h2 h1 = some arena2 := by
  induction l with
  | nil => simp [firstConnect] at h
  | cons hx rest ih =>
    unfold firstConnect at h
    cases hc : connect arena hx h1 with
    | some a2 =>
      rw [hc] at h
      injection h with he
      injection he with he1 he2
      subst he1
      subst he2
      exact ⟨List.mem_cons_self _ _, hc⟩
    | none =>
      rw [hc] at h
      rcases ih h with ⟨hm, hcc⟩
      exact ⟨List.mem_cons_of_mem _ hm, hcc⟩

/-- Linking preserves the arena size. -/
theorem linkFrags_length (arena : List ConnectorInfoReader) (hF hT : Nat) :
    (linkFrags arena hF hT).length = arena.length := by
  unfold linkFrags
  rw [List.length_set, List.length_set]

/-- The effect of `linkFrags` on each fragment. -/
theorem fragAt_linkFrags (arena : List ConnectorInfoReader) (hF hT : Nat)
    (hne : hF ≠ hT) (hltF : hF < arena.length) (hltT : hT < arena.length) :
    fragAt (linkFrags arena hF hT) hF
        = { fragAt arena hF with next := some hT }
    ∧ fragAt (linkFrags arena hF hT) hT
        = { fragAt arena hT with prev := some hF }
    ∧ ∀ j, j ≠ hF → j ≠ hT → fragAt (linkFrags arena hF hT) j = fragAt arena j := by
  unfold linkFrags
  have hltT1 : hT < (arena.set hF { fragAt arena hF with next := some hT }).length := by
    rw [List.length_set]; exact hltT
  refine ⟨?_, ?_, ?_⟩
  · rw [fragAt_set _ _ _ _ hltT1, if_neg hne,
      fragAt_set _ _ _ _ hltF, if_pos rfl]
  · rw [fragAt_set _ _ _ _ hltT1, if_pos rfl,
      fragAt_set _ _ _ _ hltF, if_neg (fun he => hne he.symm)]
  · intro j hjF hjT
    rw [fragAt_set _ _ _ _ hltT1, if_neg hjT, fragAt_set _ _ _ _ hltF, if_neg hjF]

/-- The head walk stops at a fragment with no predecessor. -/
theorem headOfAux_of_prev_none (arena : List ConnectorInfoReader) (h : Nat)
    (hp : (fragAt arena h).prev = none) :
    ∀ fuel, headOfAux arena fuel h = h := by
  intro fuel
  cases fuel with
  | zero => rfl
  | succ k => unfold headOfAux; rw [hp]

/-- The chain walk stops at a fragment with no successor. -/
theorem chainOfAux_of_next_none (arena : List ConnectorInfoReader) (h : Nat)
    (hn : (fragAt arena h).next = none) :
    ∀ fuel, chainOfAux arena fuel h = [h] := by
  intro fuel
  cases fuel with
  | zero => rfl
  | succ k => unfold chainOfAux; rw [hn]

/-- The chain of a linked pair whose outer links are absent. -/
theorem chain_linked_pair (arena2 : List ConnectorInfoReader) (hF hT : Nat)
    (hFprev : (fragAt arena2 hF).prev = none)
    (hFnext : (fragAt arena2 hF).next = some hT)
    (hTprev : (fragAt arena2 hT).prev = some hF)
    (hTnext : (fragAt arena2 hT).next = none)
    (hlen : 2 ≤ arena2.length) :
    headOf arena2 hF = hF ∧ headOf arena2 hT = hF
    ∧ chainOf arena2 hF = [hF, hT] ∧ chainOf arena2 hT = [hF, hT] := by
  obtain ⟨k, hk⟩ : ∃ k, arena2.length = k + 1 := ⟨arena2.length - 1, by omega⟩
  have hhF : headOf arena2 hF = hF := headOfAux_of_prev_none arena2 hF hFprev _
  have hhT : headOf arena2 hT = hF := by
    unfold headOf
    rw [hk]
    unfold headOfAux
    rw [hTprev]
    exact headOfAux_of_prev_none arena2 hF hFprev k
  have hch : chainOfAux arena2 arena2.length hF = [hF, hT] := by
    rw [hk]
    unfold chainOfAux
    rw [hFnext]
    show hF :: chainOfAux arena2 k hT = [hF, hT]
    rw [chainOfAux_of_next_none arena2 hT hTnext k]
  refine ⟨hhF, hhT, ?_, ?_⟩
  · unfold chainOf
    rw [hhF, hch]
  · unfold chainOf
    rw [hhT, hch]

/-- Case analysis of a successful `connect`: the link is created in
one of the two complementary directions. -/
theorem connect_cases (arena : List ConnectorInfoReader) (h2 h1 : Nat)
    (arena2 : List ConnectorInfoReader) (hc : connect arena h2 h1 = some arena2) :
    (arena2 = linkFrags arena h2 h1
      ∧ (fragAt arena h2).role = Role.start ∧ (fragAt arena h1).role = Role.stop
      ∧ (fragAt arena h2).next = none ∧ (fragAt arena h1).prev = none
      ∧ (fragAt arena h2).tick ≤ (fragAt arena h1).tick)
    ∨ (arena2 = linkFrags arena h1 h2
      ∧ (fragAt arena h2).role = Role.stop ∧ (fragAt arena h1).role = Role.start
      ∧ (fragAt arena h1).next = none ∧ (fragAt arena h2).prev = none
      ∧ (fragAt arena h1).tick ≤ (fragAt arena h2).tick) := by
  unfold connect at hc
  dsimp only at hc
  split_ifs at hc with hid hdir1 hdir2
  · injection hc with he
    exact Or.inl ⟨he.symm, hdir1.1, hdir1.2.1, hdir1.2.2.1, hdir1.2.2.2.1, hdir1.2.2.2.2⟩
  · injection hc with he
    exact Or.inr ⟨he.symm, hdir2.1, hdir2.2.1, hdir2.2.2.1, hdir2.2.2.2.1, hdir2.2.2.2.2⟩

/-- Reachable-state invariant of the connector pool: live handles are
valid arena indices, pairwise distinct, and unlinked (in this model a
pair that links is finished at once and is removed in the same call, so
active chains are singletons). -/
def WFConn (st : ConnectorState) : Prop :=
  st.conns.Nodup
  ∧ ∀ h ∈ st.conns, h < st.arena.length
      ∧ (fragAt st.arena h).prev = none ∧ (fragAt st.arena h).next = none

/-- Erasing both members of a pair from a duplicate-free list removes
them. -/
theorem pair_erase_not_mem (cs : List Nat) (hnd : cs.Nodup) (x y : Nat)
    (hxy : x ≠ y) :
    x ∉ (cs.erase x).erase y ∧ y ∉ (cs.erase x).erase y := by
  constructor
  · intro hmem
    rw [List.mem_erase_of_ne hxy] at hmem
    exact hnd.not_mem_erase hmem
  · intro hmem
    exact (hnd.erase x).not_mem_erase hmem

/-- C4: `addConnectorInfo` inserts the new fragment as a singleton
chain; the scan connects it to the first compatible existing chain in
insertion order (first-match, not best-match — the self-attempt of the
freshly pushed fragment never succeeds); when no chain is compatible
the fragment just joins the pool; at most one chain is committed per
call; and when the join finishes a chain, that chain — the new fragment
included — is committed under the current paste mode and every one of
its fragments leaves `activeConnectors`. -/
theorem addConnectorInfo_spec (st : ConnectorState) (f : ConnectorInfoReader)
    (hwf : WFConn st) (hfp : f.prev = none) (hfn : f.next = none) :
    chainOf (st.arena ++ [f]) st.arena.length = [st.arena.length]
    ∧ (firstConnect (st.arena ++ [f]) st.arena.length
          (st.conns ++ [st.arena.length])).map Prod.fst
        = st.conns.find?
            (fun h2 => (connect (st.arena ++ [f]) h2 st.arena.length).isSome)
    ∧ (st.conns.find?
          (fun h2 => (connect (st.arena ++ [f]) h2 st.arena.length).isSome)
            = none →
        addConnectorInfo st f
          = { st with arena := st.arena ++ [f],
                      conns := st.conns ++ [st.arena.length] })
    ∧ (addConnectorInfo st f).committed.length ≤ st.committed.length + 1
    ∧ (∀ (h2 : Nat) (arena2 : List ConnectorInfoReader),
        firstConnect (st.arena ++ [f]) st.arena.length
            (st.conns ++ [st.arena.length]) = some (h2, arena2) →
        finished arena2 h2 = true →
        (addConnectorInfo st f).committed
            = st.committed ++ [(headOf arena2 h2, st.paste)]
        ∧ st.arena.length ∈ chainOf arena2 h2
        ∧ ∀ m ∈ chainOf arena2 h2, m ∉ (addConnectorInfo st f).conns) := by
  have hf1 : fragAt (st.arena ++ [f]) st.arena.length = f := fragAt_concat _ _
  have hnotmem : st.arena.length ∉ st.conns := by
    intro hmem
    exact absurd ((hwf.2 st.arena.length hmem).1) (lt_irrefl _)
  have hndplus : (st.conns ++ [st.arena.length]).Nodup := by
    simp [List.nodup_append, hwf.1, hnotmem]
  refine ⟨?_, ?_, ?_, ?_, ?_⟩
  · unfold chainOf
    rw [headOf, headOfAux_of_prev_none _ _ (by rw [hf1]; exact hfp),
      chainOfAux_of_next_none _ _ (by rw [hf1]; exact hfn)]
  · rw [firstConnect_append_self, firstConnect_eq_find]
  · intro hnone
    have hfc : firstConnect (st.arena ++ [f]) st.arena.length
        (st.conns ++ [st.arena.length]) = none := by
      rw [firstConnect_append_self]
      have := firstConnect_eq_find (st.arena ++ [f]) st.arena.length st.conns
      rw [hnone] at this
      exact Option.map_eq_none.mp this
    unfold addConnectorInfo
    dsimp only
    rw [hfc]
  · unfold addConnectorInfo
    dsimp only
    cases hm : firstConnect (st.arena ++ [f]) st.arena.length
        (st.conns ++ [st.arena.length]) with
    | none => simp
    | some pr =>
      match pr with
      | (h2, arena2) =>
        dsimp only
        split_ifs <;> simp
  · intro h2 arena2 hfc hfin
    have hfc2 : firstConnect (st.arena ++ [f]) st.arena.length st.conns
        = some (h2, arena2) := by
      rw [← firstConnect_append_self (st.arena ++ [f]) st.arena.length st.conns]
      exact hfc
    obtain ⟨hmem2, hconn⟩ := firstConnect_some _ _ _ _ _ hfc2
    obtain ⟨hlt2, hprev2, hnext2⟩ := hwf.2 h2 hmem2
    have hne : h2 ≠ st.arena.length := Nat.ne_of_lt hlt2
    have hlen1 : (st.arena ++ [f]).length = st.arena.length + 1 := by simp
    have hlt2p : h2 < (st.arena ++ [f]).length := by omega
    have hlt1p : st.arena.length < (st.arena ++ [f]).length := by omega
    have hf2 : fragAt (st.arena ++ [f]) h2 = fragAt st.arena h2 :=
      fragAt_append_left _ _ _ hlt2
    have hres : addConnectorInfo st f
        = { arena := arena2,
            conns := removeConnector arena2 (st.conns ++ [st.arena.length]) h2,
            committed := st.committed ++ [(headOf arena2 h2, st.paste)],
            paste := st.paste } := by
      unfold addConnectorInfo
      dsimp only
      rw [hfc]
      dsimp only
      rw [hfin]
      rfl
    rcases connect_cases _ _ _ _ hconn with
      ⟨ha2, hr2, hr1, hn2, hp1, hord⟩ | ⟨ha2, hr2, hr1, hn1, hp2, hord⟩
    · -- h2 (start) continues into the new fragment (stop)
      obtain ⟨hFl, hTl, hOl⟩ :=
        fragAt_linkFrags (st.arena ++ [f]) h2 st.arena.length hne hlt2p hlt1p
      have hlen2 : (2 : Nat) ≤ arena2.length := by
        rw [ha2, linkFrags_length, hlen1]; omega
      obtain ⟨hh2, hh1, hch2, hch1⟩ := chain_linked_pair arena2 h2 st.arena.length
        (by rw [ha2, hFl, hf2]; exact hprev2)
        (by rw [ha2, hFl, hf2])
        (by rw [ha2, hTl, hf1])
        (by rw [ha2, hTl, hf1]; exact hfn)
        hlen2
      refine ⟨by rw [hres], by rw [hch2]; simp, ?_⟩
      intro m hm
      rw [hres]
      show m ∉ removeConnector arena2 (st.conns ++ [st.arena.length]) h2
      unfold removeConnector
      rw [hch2] at hm ⊢
      obtain ⟨hx, hy⟩ := pair_erase_not_mem (st.conns ++ [st.arena.length])
        hndplus h2 st.arena.length hne
      rcases List.mem_cons.mp hm with rfl | hm
      · exact hx
      · rcases List.mem_cons.mp hm with rfl | hm
        · exact hy
        · simp at hm
    · -- the new fragment (start) continues into h2 (stop)
      obtain ⟨hFl, hTl, hOl⟩ :=
        fragAt_linkFrags (st.arena ++ [f]) st.arena.length h2
          (fun he => hne he.symm) hlt1p hlt2p
      have hlen2 : (2 : Nat) ≤ arena2.length := by
        rw [ha2, linkFrags_length, hlen1]; omega
      obtain ⟨hh2, hh1, hch2, hch1⟩ := chain_linked_pair arena2 st.arena.length h2
        (by rw [ha2, hFl, hf1]; exact hfp)
        (by rw [ha2, hFl, hf1])
        (by rw [ha2, hTl, hf2])
        (by rw [ha2, hTl, hf2]; exact hnext2)
        hlen2
      refine ⟨by rw [hres], by rw [hch1]; simp, ?_⟩
      intro m hm
      rw [hres]
      show m ∉ removeConnector arena2 (st.conns ++ [st.arena.length]) h2
      unfold removeConnector
      rw [hch1] at hm ⊢
      obtain ⟨hx, hy⟩ := pair_erase_not_mem (st.conns ++ [st.arena.length])
        hndplus st.arena.length h2 (fun he => hne he.symm)
      rcases List.mem_cons.mp hm with rfl | hm
      · exact hx
      · rcases List.mem_cons.mp hm with rfl | hm
        · exact hy
        · simp at hm

/-- A pool holding one pending start fragment (id 5 at tick 10), for
the C4 witness. -/
def connStateEx : ConnectorState :=
  ⟨[⟨5, .other, .start, 10, none, none, some 9⟩], [0], [], false⟩

/-- The matching end fragment (id 5 at tick 40), for the C4 witness. -/
def connFragEx : ConnectorInfoReader := ⟨5, .other, .stop, 40, none, none, none⟩

/-- The linked arena produced by the witness call. -/
def connArenaEx2 : List ConnectorInfoReader :=
  [⟨5, .other, .start, 10, none, some 1, some 9⟩,
   ⟨5, .other, .stop, 40, some 0, none, none⟩]

/-- Witness for C4 at the concrete id-5 pair: the fresh fragment is a
singleton chain, the join commits exactly one chain under the current
paste mode, and both chain fragments leave the live list. -/
theorem addConnectorInfo_spec_witness :
    chainOf (connStateEx.arena ++ [connFragEx]) connStateEx.arena.length
      = [connStateEx.arena.length]
    ∧ (addConnectorInfo connStateEx connFragEx).committed.length
        ≤ connStateEx.committed.length + 1
    ∧ (addConnectorInfo connStateEx connFragEx).committed
        = connStateEx.committed ++ [(headOf connArenaEx2 0, connStateEx.paste)]
    ∧ ∀ m ∈ chainOf connArenaEx2 0, m ∉ (addConnectorInfo connStateEx connFragEx).conns := by
  have h := addConnectorInfo_spec connStateEx connFragEx
    (by unfold WFConn; decide) rfl rfl
  have hd := h.2.2.2.2 0 connArenaEx2 (by decide) (by decide)
  exact ⟨h.1, h.2.2.2.1, hd.1, hd.2.2⟩

end Ms
